import Mathlib

/-!
# Verification of the `winter` feed reader's core data layer

This file gives a shallow embedding of the core of the `winter`
repository — the base64 filename codec, the feed merge engine, the
filesystem reconciler's `refresh`, the `Database` read-marker
operations, the deduplicating `Fetcher`, and the `MaybeLoaded` media
state machine — and proves (or refutes) the specification claims about
them.

Rust strings are modelled as their UTF-8 byte sequences (`List Nat`,
each element `< 256`) wherever the code manipulates bytes (the codec,
composite keys, filenames); plain `String` is used where only equality
of keys matters (the fetcher's URL map).
-/

namespace Winter

/-! ## Base64 codec (`base64::engine::general_purpose`, STANDARD alphabet)

`Database::from_dir` and `inotify::refresh` both build
`GeneralPurpose::new(&base64::alphabet::STANDARD, GeneralPurposeConfig::default())`:
the standard alphabet `A-Z a-z 0-9 + /` with `=` padding, canonical
padding required on decode and trailing bits rejected. -/

/-- The STANDARD base64 alphabet: sextet value to ASCII byte.
Indices 0-25 ↦ `A`-`Z`, 26-51 ↦ `a`-`z`, 52-61 ↦ `0`-`9`, 62 ↦ `+`, 63 ↦ `/`. -/
def b64Char (n : Nat) : Nat :=
  if n < 26 then 65 + n
  else if n < 52 then 97 + (n - 26)
  else if n < 62 then 48 + (n - 52)
  else if n = 62 then 43
  else 47

/-- Inverse of the STANDARD alphabet: ASCII byte to sextet value.
`=` (61) is not in the alphabet and maps to `none`. -/
def b64Inv (c : Nat) : Option Nat :=
  if 65 ≤ c ∧ c ≤ 90 then some (c - 65)
  else if 97 ≤ c ∧ c ≤ 122 then some (c - 97 + 26)
  else if 48 ≤ c ∧ c ≤ 57 then some (c - 48 + 52)
  else if c = 43 then some 62
  else if c = 47 then some 63
  else none

/-- Encoding as in `base64.encode_string` / `base64.encode` with the STANDARD engine:
encode a byte sequence to the ASCII bytes of its padded base64 form. -/
def b64Encode : List Nat → List Nat
  | [] => []
  | [a] => [b64Char (a / 4), b64Char (a % 4 * 16), 61, 61]
  | [a, b] => [b64Char (a / 4), b64Char (a % 4 * 16 + b / 16), b64Char (b % 16 * 4), 61]
  | a :: b :: c :: rest =>
      b64Char (a / 4) :: b64Char (a % 4 * 16 + b / 16) ::
      b64Char (b % 16 * 4 + c / 64) :: b64Char (c % 64) :: b64Encode rest

/-- Decoding as in `base64.decode` with the STANDARD engine and default config:
canonical padding required, non-alphabet bytes rejected, and the unused
trailing bits of a padded final quantum must be zero. -/
def b64Decode : List Nat → Option (List Nat)
  | [] => some []
  | c1 :: c2 :: c3 :: c4 :: rest =>
    match b64Inv c1, b64Inv c2 with
    | some s1, some s2 =>
      if c3 = 61 ∧ c4 = 61 ∧ rest = [] then
        if s2 % 16 = 0 then some [s1 * 4 + s2 / 16] else none
      else if c4 = 61 ∧ rest = [] then
        match b64Inv c3 with
        | some s3 =>
            if s3 % 4 = 0 then some [s1 * 4 + s2 / 16, s2 % 16 * 16 + s3 / 4] else none
        | none => none
      else
        match b64Inv c3, b64Inv c4 with
        | some s3, some s4 =>
            (b64Decode rest).map
              (fun tl => (s1 * 4 + s2 / 16) :: (s2 % 16 * 16 + s3 / 4) :: (s3 % 4 * 64 + s4) :: tl)
        | _, _ => none
    | _, _ => none
  | _ => none

/-- UTF-8 validity of a byte sequence, as checked by Rust's
`String::from_utf8`: ASCII, and 2-, 3-, 4-byte sequences with the
standard lead-byte ranges, excluding overlong forms, surrogates and
code points above U+10FFFF. -/
def validUtf8 : List Nat → Bool
  | [] => true
  | b :: rest =>
    if b < 0x80 then validUtf8 rest
    else if 0xC2 ≤ b ∧ b ≤ 0xDF then
      match rest with
      | c1 :: rest => (0x80 ≤ c1 && c1 ≤ 0xBF) && validUtf8 rest
      | [] => false
    else if b = 0xE0 then
      match rest with
      | c1 :: c2 :: rest =>
          (0xA0 ≤ c1 && c1 ≤ 0xBF) && (0x80 ≤ c2 && c2 ≤ 0xBF) && validUtf8 rest
      | _ => false
    else if (0xE1 ≤ b ∧ b ≤ 0xEC) ∨ b = 0xEE ∨ b = 0xEF then
      match rest with
      | c1 :: c2 :: rest =>
          (0x80 ≤ c1 && c1 ≤ 0xBF) && (0x80 ≤ c2 && c2 ≤ 0xBF) && validUtf8 rest
      | _ => false
    else if b = 0xED then
      match rest with
      | c1 :: c2 :: rest =>
          (0x80 ≤ c1 && c1 ≤ 0x9F) && (0x80 ≤ c2 && c2 ≤ 0xBF) && validUtf8 rest
      | _ => false
    else if b = 0xF0 then
      match rest with
      | c1 :: c2 :: c3 :: rest =>
          (0x90 ≤ c1 && c1 ≤ 0xBF) && (0x80 ≤ c2 && c2 ≤ 0xBF) &&
          (0x80 ≤ c3 && c3 ≤ 0xBF) && validUtf8 rest
      | _ => false
    else if 0xF1 ≤ b ∧ b ≤ 0xF3 then
      match rest with
      | c1 :: c2 :: c3 :: rest =>
          (0x80 ≤ c1 && c1 ≤ 0xBF) && (0x80 ≤ c2 && c2 ≤ 0xBF) &&
          (0x80 ≤ c3 && c3 ≤ 0xBF) && validUtf8 rest
      | _ => false
    else if b = 0xF4 then
      match rest with
      | c1 :: c2 :: c3 :: rest =>
          (0x80 ≤ c1 && c1 ≤ 0x8F) && (0x80 ≤ c2 && c2 ≤ 0xBF) &&
          (0x80 ≤ c3 && c3 ≤ 0xBF) && validUtf8 rest
      | _ => false
    else false

/-- The filename decoder used by `refresh` (state/inotify.rs lines 82-90
and 106-113): `base64.decode(name)` followed by `String::from_utf8`. -/
def decodeName (name : List Nat) : Option (List Nat) :=
  match b64Decode name with
  | some data => if validUtf8 data then some data else none
  | none => none

/-- Round-trip of the sextet tables, checked over all 64 values. -/
theorem b64Inv_b64Char : ∀ n < 64, b64Inv (b64Char n) = some n := by decide

/-- The base64 codec round-trips on every byte sequence. -/
theorem b64Decode_b64Encode (bs : List Nat) (h : ∀ b ∈ bs, b < 256) :
    b64Decode (b64Encode bs) = some bs := by
  induction bs using b64Encode.induct with
  | case1 => rfl
  | case2 a =>
    have ha : a < 256 := h a (by simp)
    have h1 := b64Inv_b64Char (a / 4) (by omega)
    have h2 := b64Inv_b64Char (a % 4 * 16) (by omega)
    simp only [b64Encode, b64Decode, h1, h2]
    rw [if_pos ⟨trivial, trivial, trivial⟩, if_pos (show a % 4 * 16 % 16 = 0 by omega)]
    simp only [Option.some.injEq, List.cons.injEq, and_true]
    omega
  | case3 a b =>
    have ha : a < 256 := h a (by simp)
    have hb : b < 256 := h b (by simp)
    have h1 := b64Inv_b64Char (a / 4) (by omega)
    have h2 := b64Inv_b64Char (a % 4 * 16 + b / 16) (by omega)
    have h3 := b64Inv_b64Char (b % 16 * 4) (by omega)
    have hne : ¬ b64Char (b % 16 * 4) = 61 := by
      simp only [b64Char]; split_ifs <;> omega
    simp only [b64Encode, b64Decode, h1, h2, h3]
    rw [if_neg (fun hcon => hne hcon.1), if_pos ⟨trivial, trivial⟩,
      if_pos (show b % 16 * 4 % 4 = 0 by omega)]
    simp only [Option.some.injEq, List.cons.injEq, and_true]
    omega
  | case4 a b c rest ih =>
    have ha : a < 256 := h a (by simp)
    have hb : b < 256 := h b (by simp)
    have hc : c < 256 := h c (by simp)
    have h1 := b64Inv_b64Char (a / 4) (by omega)
    have h2 := b64Inv_b64Char (a % 4 * 16 + b / 16) (by omega)
    have h3 := b64Inv_b64Char (b % 16 * 4 + c / 64) (by omega)
    have h4 := b64Inv_b64Char (c % 64) (by omega)
    have hrest : ∀ x ∈ rest, x < 256 := fun x hx => h x (by simp [hx])
    have hne3 : ¬ b64Char (b % 16 * 4 + c / 64) = 61 := by
      simp only [b64Char]; split_ifs <;> omega
    have hne4 : ¬ b64Char (c % 64) = 61 := by
      simp only [b64Char]; split_ifs <;> omega
    simp only [b64Encode, b64Decode, h1, h2, h3, h4]
    rw [if_neg (fun hcon => hne3 hcon.1), if_neg (fun hcon => hne4 hcon.1), ih hrest]
    simp only [Option.map, Option.some.injEq, List.cons.injEq, and_true]
    omega

/-! ## Claims about the codec -/

/-- C3: for every valid UTF-8 string `s` (given by its bytes), decoding
the encoding of `s` succeeds and returns `s`, where encode is
`base64.encode` and decode is `base64.decode` followed by
`String::from_utf8` as in `refresh`. -/
theorem decode_encode_roundtrip (s : List Nat) (hb : ∀ b ∈ s, b < 256)
    (hu : validUtf8 s = true) : decodeName (b64Encode s) = some s := by
  simp only [decodeName, b64Decode_b64Encode s hb, hu, if_true]

theorem decode_encode_roundtrip_witness :
    (∀ b ∈ [97, 98, 99], b < 256) ∧ validUtf8 [97, 98, 99] = true ∧
    decodeName (b64Encode [97, 98, 99]) = some [97, 98, 99] :=
  ⟨by decide, by decide, decode_encode_roundtrip [97, 98, 99] (by decide) (by decide)⟩

/-- C2: the claim that every encoded filename is free of the path
separator `/` is FALSE of the code: the STANDARD base64 alphabet maps
sextet 63 to `/` (byte 47), so the valid UTF-8 string `"???"`
(bytes `0x3F 0x3F 0x3F`) encodes to `"Pz8/"` (bytes `80 122 56 47`),
which contains `/` and is not a single filesystem name component. -/
theorem encode_produces_path_separator :
    validUtf8 [63, 63, 63] = true ∧
    b64Encode [63, 63, 63] = [80, 122, 56, 47] ∧
    47 ∈ b64Encode [63, 63, 63] := by decide

/-! ## Merge engine (`impl Merge`, state/mod.rs lines 185-231)

`rss::Item` and `atom_syndication::Entry` are external collaborator
types; for the merge only the item identity (`guid()` for RSS — an
`Option`, since RSS items need not carry a guid — and `id()` for Atom)
takes part in any computation, so each item is modelled as its identity
plus an opaque payload standing for all its other fields, and each feed
as its item list plus an opaque `meta` standing for every non-item
field. -/

structure RssItem where
  guid : Option String
  payload : String
deriving DecidableEq

structure RssChannel where
  meta : String
  items : List RssItem
deriving DecidableEq

/-- Embedding of `impl Merge for rss::Channel` (state/mod.rs lines 201-214):
collect the guids present in `from`'s items, replace `self` by `from`'s
metadata with the original items, retain the original items by
`item.guid().map_or(false, |g| !guids_to_write.contains(&g))`, then
append all of `from`'s items. -/
def RssChannel.merge (self from_ : RssChannel) : RssChannel :=
  let guids_to_write := from_.items.filterMap RssItem.guid
  let orig_items := self.items
  let new_items := from_.items
  let replaced : RssChannel := { from_ with items := orig_items }
  let retained := replaced.items.filter fun item =>
    match item.guid with
    | some g => !guids_to_write.contains g
    | none => false
  { replaced with items := retained ++ new_items }

structure AtomEntry where
  id : String
  payload : String
deriving DecidableEq

structure AtomFeed where
  meta : String
  entries : List AtomEntry
deriving DecidableEq

/-- Embedding of `impl Merge for atom_syndication::Feed` (state/mod.rs lines
216-231): retain the original entries whose id is not among `from`'s
entry ids, append `from`'s entries, and take everything else from
`from`. -/
def AtomFeed.merge (self from_ : AtomFeed) : AtomFeed :=
  let guids_to_write := from_.entries.map AtomEntry.id
  let orig_items := self.entries.filter fun item => !guids_to_write.contains item.id
  { from_ with entries := orig_items ++ from_.entries }

/-- Embedding of `crate::syndication::Feed`: the two feed kinds. -/
inductive Feed where
  | Atom (f : AtomFeed)
  | RSS (c : RssChannel)
deriving DecidableEq

/-- Embedding of `impl Merge for Feed` (state/mod.rs lines 189-199): matching kinds
delegate; mismatched kinds print a warning and leave `self` unchanged. -/
def Feed.merge : Feed → Feed → Feed
  | .Atom l, .Atom r => .Atom (l.merge r)
  | .RSS l, .RSS r => .RSS (l.merge r)
  | l, _ => l

/-- The item list claim C1 states for an RSS merge, phrased from the
spec's words: the base items whose identity (their guid) does not
appear among the identities of the incoming items, followed by every
incoming item. -/
def rssItemsPerClaim (base incoming : RssChannel) : List RssItem :=
  (base.items.filter fun item =>
    !((incoming.items.map RssItem.guid).contains item.guid)) ++ incoming.items

/-- C1 counterexample: merging an empty incoming RSS channel into a
base channel holding one guid-less item drops that item — the code's
retention predicate `map_or(false, ..)` discards every base item
without a guid — while the claim retains it (no identity of the base
item appears among incoming's identities). -/
theorem rss_merge_drops_guidless_counterexample :
    (RssChannel.merge ⟨"m", [⟨none, "x"⟩]⟩ ⟨"n", []⟩).items ≠
      rssItemsPerClaim ⟨"m", [⟨none, "x"⟩]⟩ ⟨"n", []⟩ := by decide

/-- Uniform view of a feed's non-item metadata. -/
def Feed.metaOf : Feed → String
  | .Atom f => f.meta
  | .RSS c => c.meta

/-- Uniform view of a feed's items as (identity, payload) pairs: an
Atom entry's identity is its id, an RSS item's its optional guid. -/
def Feed.itemsOf : Feed → List (Option String × String)
  | .Atom f => f.entries.map fun e => (some e.id, e.payload)
  | .RSS c => c.items.map fun it => (it.guid, it.payload)

/-- The identities present in a feed: every entry id for Atom, the
guids that exist for RSS. -/
def Feed.guidsOf : Feed → List String
  | .Atom f => f.entries.map AtomEntry.id
  | .RSS c => c.items.filterMap RssItem.guid

/-- The two feeds have the same kind (both Atom or both RSS). -/
def Feed.sameKind : Feed → Feed → Prop
  | .Atom _, .Atom _ => True
  | .RSS _, .RSS _ => True
  | _, _ => False

/-- C1 (amended): for every merge of two same-kind feeds, the result's
items are the base items that CARRY an identity which does not appear
among incoming's identities — base items without a guid are always
dropped, which for Atom is vacuous — followed by every incoming item,
and the result's non-item metadata is incoming's. -/
theorem feed_merge_amended (b i : Feed) (h : Feed.sameKind b i) :
    (Feed.merge b i).itemsOf =
      (b.itemsOf.filter fun p =>
        match p.1 with
        | some g => !(i.guidsOf.contains g)
        | none => false) ++ i.itemsOf ∧
    (Feed.merge b i).metaOf = i.metaOf := by
  cases b with
  | Atom bf =>
    cases i with
    | Atom if_ =>
      refine ⟨?_, rfl⟩
      simp only [Feed.merge, AtomFeed.merge, Feed.itemsOf, Feed.guidsOf, List.map_append,
        List.filter_map]
      rfl
    | RSS ic => exact absurd h (by simp [Feed.sameKind])
  | RSS bc =>
    cases i with
    | Atom if_ => exact absurd h (by simp [Feed.sameKind])
    | RSS ic =>
      refine ⟨?_, rfl⟩
      simp only [Feed.merge, RssChannel.merge, Feed.itemsOf, Feed.guidsOf, List.map_append,
        List.filter_map]
      rfl

theorem feed_merge_amended_witness :
    Feed.sameKind (.RSS ⟨"m", [⟨some "1", "x"⟩, ⟨none, "y"⟩]⟩) (.RSS ⟨"n", [⟨some "2", "z"⟩]⟩) ∧
    ((Feed.merge (.RSS ⟨"m", [⟨some "1", "x"⟩, ⟨none, "y"⟩]⟩) (.RSS ⟨"n", [⟨some "2", "z"⟩]⟩)).itemsOf =
      ((Feed.RSS ⟨"m", [⟨some "1", "x"⟩, ⟨none, "y"⟩]⟩).itemsOf.filter fun p =>
        match p.1 with
        | some g => !((Feed.RSS ⟨"n", [⟨some "2", "z"⟩]⟩).guidsOf.contains g)
        | none => false) ++ (Feed.RSS ⟨"n", [⟨some "2", "z"⟩]⟩).itemsOf ∧
    (Feed.merge (.RSS ⟨"m", [⟨some "1", "x"⟩, ⟨none, "y"⟩]⟩) (.RSS ⟨"n", [⟨some "2", "z"⟩]⟩)).metaOf =
      (Feed.RSS ⟨"n", [⟨some "2", "z"⟩]⟩).metaOf) :=
  ⟨trivial, feed_merge_amended _ _ trivial⟩

/-! ## Database read markers (state/mod.rs lines 90-127)

The relevant state is the in-memory read set (`read_articles_cache`,
a `BTreeSet<String>` of composite keys) and the set of marker file
names present in the `read/` directory. Keys and names are byte
sequences; 37 is `%`. -/

structure DbState where
  readSet : Finset (List Nat)
  readDisk : Finset (List Nat)
deriving DecidableEq

/-- The composite key `format!("{pub_url}%{article_guid}")`. -/
def compositeKey (pub_url article_guid : List Nat) : List Nat :=
  pub_url ++ 37 :: article_guid

/-- Embedding of `Database::read` (state/mod.rs lines 90-102): insert the composite
key into the cache and write the marker file named by its base64
encoding. -/
def dbRead (s : DbState) (pub_url article_guid : List Nat) : DbState :=
  let key := compositeKey pub_url article_guid
  { readSet := insert key s.readSet
    readDisk := insert (b64Encode key) s.readDisk }

/-- Embedding of `Database::unread` (state/mod.rs lines 104-118): remove the
composite key from the cache; if it was present, delete the marker
file with `tokio::fs::remove_file(path).await.expect(..)` — deleting a
file that does not exist fails, so the `expect` panics, modelled as
`none`. -/
def dbUnread (s : DbState) (pub_url article_guid : List Nat) : Option DbState :=
  let key := compositeKey pub_url article_guid
  if key ∈ s.readSet then
    let name := b64Encode key
    if name ∈ s.readDisk then
      some { readSet := s.readSet.erase key, readDisk := s.readDisk.erase name }
    else none
  else
    some { s with readSet := s.readSet.erase key }

/-- Embedding of `Database::has_read` (state/mod.rs lines 120-127): membership of
the composite key in the cache. -/
def dbHasRead (s : DbState) (pub_url article_guid : List Nat) : Bool :=
  decide (compositeKey pub_url article_guid ∈ s.readSet)

/-! ## Claims about the read markers -/

/-- C9: immediately after `markRead(u, a)`, `hasRead(u, a)` is true;
and whenever `markUnread(u, a)` completes (does not panic),
`hasRead(u, a)` is false immediately afterwards. -/
theorem mark_read_unread_roundtrip (s : DbState) (pub_url article_guid : List Nat) :
    dbHasRead (dbRead s pub_url article_guid) pub_url article_guid = true ∧
    (∀ s', dbUnread s pub_url article_guid = some s' →
      dbHasRead s' pub_url article_guid = false) := by
  constructor
  · simp [dbHasRead, dbRead]
  · intro s' h
    simp only [dbUnread] at h
    split_ifs at h with h1 h2
    · cases h
      simp [dbHasRead, Finset.not_mem_erase]
    · cases h
      simp [dbHasRead, Finset.not_mem_erase]

theorem mark_read_unread_roundtrip_witness :
    dbHasRead (dbRead ⟨∅, ∅⟩ [97] [98]) [97] [98] = true ∧
    (∀ s', dbUnread ⟨∅, ∅⟩ [97] [98] = some s' → dbHasRead s' [97] [98] = false) :=
  mark_read_unread_roundtrip ⟨∅, ∅⟩ [97] [98]

/-- C8 counterexample: when the composite key IS in the in-memory set
but the marker file is absent on disk, `unread` panics
(`remove_file(..).expect(..)` on a missing file), contradicting the
claim that absence on disk is tolerated and never fails. Here the key
`"a%b"` is cached but `read/` holds no files. -/
theorem unread_panics_on_missing_file :
    dbUnread ⟨{[97, 37, 98]}, ∅⟩ [97] [98] = none := by decide

/-- C8 (amended): the operation `markUnread` removes the composite key from the
in-memory set in every non-panicking outcome; when the key was absent
from the set, no file operation is attempted and the call succeeds
(absence is treated as already-consistent); when the key was present
and the marker file exists, the file is deleted; but when the key was
present and the marker file is already absent on disk, the call panics. -/
theorem db_unread_amended (s : DbState) (pub_url article_guid : List Nat) :
    (∀ s', dbUnread s pub_url article_guid = some s' →
      compositeKey pub_url article_guid ∉ s'.readSet) ∧
    (compositeKey pub_url article_guid ∉ s.readSet →
      ∃ s', dbUnread s pub_url article_guid = some s' ∧ s'.readDisk = s.readDisk) ∧
    (compositeKey pub_url article_guid ∈ s.readSet →
      b64Encode (compositeKey pub_url article_guid) ∈ s.readDisk →
      ∃ s', dbUnread s pub_url article_guid = some s' ∧
        b64Encode (compositeKey pub_url article_guid) ∉ s'.readDisk) ∧
    (compositeKey pub_url article_guid ∈ s.readSet →
      b64Encode (compositeKey pub_url article_guid) ∉ s.readDisk →
      dbUnread s pub_url article_guid = none) := by
  refine ⟨?_, ?_, ?_, ?_⟩
  · intro s' h
    simp only [dbUnread] at h
    split_ifs at h with h1 h2
    · cases h; exact Finset.not_mem_erase _ _
    · cases h; exact Finset.not_mem_erase _ _
  · intro hk
    refine ⟨⟨s.readSet.erase (compositeKey pub_url article_guid), s.readDisk⟩, ?_, rfl⟩
    simp only [dbUnread, if_neg hk]
  · intro hk hd
    refine ⟨⟨s.readSet.erase (compositeKey pub_url article_guid),
      s.readDisk.erase (b64Encode (compositeKey pub_url article_guid))⟩, ?_, ?_⟩
    · simp only [dbUnread, if_pos hk, if_pos hd]
    · exact Finset.not_mem_erase _ _
  · intro hk hd
    simp only [dbUnread, if_pos hk, if_neg hd]

theorem db_unread_amended_witness :
    (∀ s', dbUnread ⟨{[97, 37, 98]}, ∅⟩ [97] [99] = some s' →
      compositeKey [97] [99] ∉ s'.readSet) ∧
    (compositeKey [97] [99] ∉ (⟨{[97, 37, 98]}, ∅⟩ : DbState).readSet →
      ∃ s', dbUnread ⟨{[97, 37, 98]}, ∅⟩ [97] [99] = some s' ∧ s'.readDisk = ∅) ∧
    (compositeKey [97] [99] ∈ (⟨{[97, 37, 98]}, ∅⟩ : DbState).readSet →
      b64Encode (compositeKey [97] [99]) ∈ (⟨{[97, 37, 98]}, ∅⟩ : DbState).readDisk →
      ∃ s', dbUnread ⟨{[97, 37, 98]}, ∅⟩ [97] [99] = some s' ∧
        b64Encode (compositeKey [97] [99]) ∉ s'.readDisk) ∧
    (compositeKey [97] [99] ∈ (⟨{[97, 37, 98]}, ∅⟩ : DbState).readSet →
      b64Encode (compositeKey [97] [99]) ∉ (⟨{[97, 37, 98]}, ∅⟩ : DbState).readDisk →
      dbUnread ⟨{[97, 37, 98]}, ∅⟩ [97] [99] = none) :=
  db_unread_amended ⟨{[97, 37, 98]}, ∅⟩ [97] [99]

/-- C10: the composite key `pub_url ++ "%" ++ article_id` is not
injective in the pair: `("a%b", "c")` and `("a", "b%c")` share the key
`"a%b%c"`, so after `markRead("a%b", "c")` the query
`hasRead("a", "b%c")` answers true. -/
theorem composite_key_aliasing :
    compositeKey [97, 37, 98] [99] = compositeKey [97] [98, 37, 99] ∧
    dbHasRead (dbRead ⟨∅, ∅⟩ [97, 37, 98] [99]) [97] [98, 37, 99] = true := by decide

/-! ## Filesystem reconciler (`refresh`, state/inotify.rs lines 63-148)

`refresh` is a function of the directory listings it reads: the file
names under `read/`, and under `subs/` the file names together with the
outcome of `tokio::fs::read_to_string` on each. Feed parsing
(`Feed::from_str`) is an external collaborator and is passed in as a
function. -/

/-- Embedding of `rss::Channel::default()`: empty metadata and no items. -/
def RssChannel.defaultChannel : RssChannel := ⟨"", []⟩

/-- Embedding of `atom_syndication::Feed::default()`: empty metadata and no entries. -/
def AtomFeed.defaultFeed : AtomFeed := ⟨"", []⟩

/-- The `or_insert_with` default of `refresh` (inotify.rs lines
138-143): an empty feed of the same kind as the parsed channel. -/
def emptyOfKind : Feed → Feed
  | .RSS _ => .RSS RssChannel.defaultChannel
  | .Atom _ => .Atom AtomFeed.defaultFeed

/-- One directory entry of `subs/`: the file's name and, when
`read_to_string` succeeded, its contents. -/
structure SubEntry where
  name : List Nat
  content : Option (List Nat)

/-- The read-marker phase of `refresh` (inotify.rs lines 70-92): after
clearing the cache, decode each listed filename and insert every
successfully decoded composite key; undecodable names are skipped. -/
def refreshReads : List (List Nat) → Finset (List Nat) → Finset (List Nat)
  | [], acc => acc
  | name :: rest, acc =>
    match decodeName name with
    | some id => refreshReads rest (insert id acc)
    | none => refreshReads rest acc

/-- The subscription phase of `refresh` (inotify.rs lines 93-145):
for each entry decode the filename to a `pub_url`, read and parse the
file (skipping on any failure), record the `pub_url` as seen, and merge
the parsed channel into the map entry (created empty of the matching
kind if absent). Returns the updated map and the set of seen urls. -/
def refreshSubs (parse : List Nat → Option Feed) :
    List SubEntry → (List Nat → Option Feed) → Finset (List Nat) →
    (List Nat → Option Feed) × Finset (List Nat)
  | [], subs, seen => (subs, seen)
  | e :: rest, subs, seen =>
    match decodeName e.name with
    | none => refreshSubs parse rest subs seen
    | some pub_url =>
      match e.content with
      | none => refreshSubs parse rest subs seen
      | some data =>
        match parse data with
        | none => refreshSubs parse rest subs seen
        | some channel =>
          let cur := match subs pub_url with
            | some f => f
            | none => emptyOfKind channel
          refreshSubs parse rest
            (fun u => if u = pub_url then some (cur.merge channel) else subs u)
            (insert pub_url seen)

/-- The whole `refresh` pass: the read cache is rebuilt from scratch,
and the subscription map is pruned to the urls seen this pass
(`subscriptions.retain(|k, _| still_in_subs.contains(k))`). -/
def refresh (parse : List Nat → Option Feed) (readListing : List (List Nat))
    (subListing : List SubEntry) (subs0 : List Nat → Option Feed) :
    Finset (List Nat) × (List Nat → Option Feed) :=
  let readSet := refreshReads readListing ∅
  let p := refreshSubs parse subListing subs0 ∅
  (readSet, fun u => if u ∈ p.2 then p.1 u else none)

theorem mem_refreshReads (l : List (List Nat)) (acc : Finset (List Nat)) (k : List Nat) :
    k ∈ refreshReads l acc ↔ k ∈ acc ∨ ∃ n ∈ l, decodeName n = some k := by
  induction l generalizing acc with
  | nil => simp [refreshReads]
  | cons n rest ih =>
    simp only [refreshReads]
    cases h : decodeName n with
    | none =>
      rw [ih]
      simp only [List.mem_cons]
      constructor
      · rintro (hk | ⟨m, hm, hd⟩)
        · exact Or.inl hk
        · exact Or.inr ⟨m, Or.inr hm, hd⟩
      · rintro (hk | ⟨m, hm | hm, hd⟩)
        · exact Or.inl hk
        · rw [hm] at hd; rw [hd] at h; cases h
        · exact Or.inr ⟨m, hm, hd⟩
    | some id =>
      rw [ih]
      simp only [Finset.mem_insert, List.mem_cons]
      constructor
      · rintro ((hk | hk) | ⟨m, hm, hd⟩)
        · exact Or.inr ⟨n, Or.inl rfl, by rw [h, hk]⟩
        · exact Or.inl hk
        · exact Or.inr ⟨m, Or.inr hm, hd⟩
      · rintro (hk | ⟨m, hm | hm, hd⟩)
        · exact Or.inl (Or.inr hk)
        · rw [hm] at hd; rw [hd] at h; cases h; exact Or.inl (Or.inl rfl)
        · exact Or.inr ⟨m, hm, hd⟩

theorem refreshSubs_seen_isSome (parse : List Nat → Option Feed) (l : List SubEntry)
    (subs : List Nat → Option Feed) (seen : Finset (List Nat))
    (h : ∀ u ∈ seen, (subs u).isSome) :
    ∀ u ∈ (refreshSubs parse l subs seen).2, ((refreshSubs parse l subs seen).1 u).isSome := by
  induction l generalizing subs seen with
  | nil => exact h
  | cons e rest ih =>
    cases hd : decodeName e.name with
    | none => simpa only [refreshSubs, hd] using ih subs seen h
    | some pub_url =>
      cases hc : e.content with
      | none => simpa only [refreshSubs, hd, hc] using ih subs seen h
      | some data =>
        cases hp : parse data with
        | none => simpa only [refreshSubs, hd, hc, hp] using ih subs seen h
        | some channel =>
          simp only [refreshSubs, hd, hc, hp]
          apply ih
          intro u hu
          rcases Finset.mem_insert.1 hu with rfl | hu
          · simp
          · by_cases he : u = pub_url
            · simp [he]
            · simpa [he] using h u hu

theorem mem_refreshSubs_seen (parse : List Nat → Option Feed) (l : List SubEntry)
    (subs : List Nat → Option Feed) (seen : Finset (List Nat)) (u : List Nat) :
    u ∈ (refreshSubs parse l subs seen).2 ↔ u ∈ seen ∨
      ∃ e ∈ l, decodeName e.name = some u ∧ ∃ d, e.content = some d ∧ (parse d).isSome := by
  induction l generalizing subs seen with
  | nil => simp [refreshSubs]
  | cons e rest ih =>
    cases hd : decodeName e.name with
    | none =>
      rw [show refreshSubs parse (e :: rest) subs seen = refreshSubs parse rest subs seen by
        simp only [refreshSubs, hd], ih]
      simp only [List.mem_cons]
      constructor
      · rintro (hu | ⟨m, hm, hmu⟩)
        · exact Or.inl hu
        · exact Or.inr ⟨m, Or.inr hm, hmu⟩
      · rintro (hu | ⟨m, hm | hm, hmu, hrest⟩)
        · exact Or.inl hu
        · rw [hm] at hmu; rw [hmu] at hd; cases hd
        · exact Or.inr ⟨m, hm, hmu, hrest⟩
    | some pub_url =>
      cases hc : e.content with
      | none =>
        rw [show refreshSubs parse (e :: rest) subs seen = refreshSubs parse rest subs seen by
          simp only [refreshSubs, hd, hc], ih]
        simp only [List.mem_cons]
        constructor
        · rintro (hu | ⟨m, hm, hmu⟩)
          · exact Or.inl hu
          · exact Or.inr ⟨m, Or.inr hm, hmu⟩
        · rintro (hu | ⟨m, hm | hm, hmu, d, hdc, hpd⟩)
          · exact Or.inl hu
          · rw [hm] at hdc; rw [hdc] at hc; cases hc
          · exact Or.inr ⟨m, hm, hmu, d, hdc, hpd⟩
      | some data =>
        cases hp : parse data with
        | none =>
          rw [show refreshSubs parse (e :: rest) subs seen = refreshSubs parse rest subs seen by
            simp only [refreshSubs, hd, hc, hp], ih]
          simp only [List.mem_cons]
          constructor
          · rintro (hu | ⟨m, hm, hmu⟩)
            · exact Or.inl hu
            · exact Or.inr ⟨m, Or.inr hm, hmu⟩
          · rintro (hu | ⟨m, hm | hm, hmu, d, hdc, hpd⟩)
            · exact Or.inl hu
            · rw [hm] at hdc; rw [hdc] at hc; cases hc
              rw [hm] at hmu; rw [hmu] at hd
              exact absurd hpd (by rw [hp]; simp)
            · exact Or.inr ⟨m, hm, hmu, d, hdc, hpd⟩
        | some channel =>
          rw [show refreshSubs parse (e :: rest) subs seen =
            refreshSubs parse rest
              (fun v => if v = pub_url then
                some ((match subs pub_url with
                  | some f => f
                  | none => emptyOfKind channel).merge channel) else subs v)
              (insert pub_url seen) by simp only [refreshSubs, hd, hc, hp], ih]
          simp only [Finset.mem_insert, List.mem_cons]
          constructor
          · rintro ((rfl | hu) | ⟨m, hm, hmu⟩)
            · exact Or.inr ⟨e, Or.inl rfl, hd, data, hc, by rw [hp]; simp⟩
            · exact Or.inl hu
            · exact Or.inr ⟨m, Or.inr hm, hmu⟩
          · rintro (hu | ⟨m, hm | hm, hmu, d, hdc, hpd⟩)
            · exact Or.inl (Or.inr hu)
            · rw [hm] at hmu; rw [hmu] at hd; cases hd
              exact Or.inl (Or.inl rfl)
            · exact Or.inr ⟨m, hm, hmu, d, hdc, hpd⟩

/-- C7: after a single `refresh` pass, the read-set equals exactly the
set of composite keys successfully decoded from the filenames listed in
`read/`, and the subscription map holds a value exactly for the
`pub_url`s whose files in `subs/` were successfully decoded, read and
parsed during that pass — whatever the caches held before. -/
theorem refresh_rebuilds_caches (parse : List Nat → Option Feed)
    (readListing : List (List Nat)) (subListing : List SubEntry)
    (subs0 : List Nat → Option Feed) :
    (∀ k, k ∈ (refresh parse readListing subListing subs0).1 ↔
      ∃ n ∈ readListing, decodeName n = some k) ∧
    (∀ u, ((refresh parse readListing subListing subs0).2 u).isSome ↔
      ∃ e ∈ subListing, decodeName e.name = some u ∧
        ∃ d, e.content = some d ∧ (parse d).isSome) := by
  constructor
  · intro k
    rw [show (refresh parse readListing subListing subs0).1 = refreshReads readListing ∅ from rfl,
      mem_refreshReads]
    simp
  · intro u
    show (if u ∈ (refreshSubs parse subListing subs0 ∅).2
      then (refreshSubs parse subListing subs0 ∅).1 u else none).isSome ↔ _
    by_cases hu : u ∈ (refreshSubs parse subListing subs0 ∅).2
    · rw [if_pos hu]
      have hsome := refreshSubs_seen_isSome parse subListing subs0 ∅ (by simp) u hu
      rw [mem_refreshSubs_seen] at hu
      simp only [Finset.not_mem_empty, false_or] at hu
      simpa [hsome] using hu
    · rw [if_neg hu]
      rw [mem_refreshSubs_seen] at hu
      simp only [Finset.not_mem_empty, false_or] at hu
      simpa using hu

/-! ## Deduplicating fetcher (fetch/mod.rs lines 10-66)

The fetcher's state is its `in_progress` map from URL to the spawned
task's `JoinHandle`. A handle is either still running or finished; a
finished handle yields `Ok(outcome)` or a join error (`handle.await`
failing), modelled as `Option α`. Task completion is an external event
(`completeTask`). Each public operation is modelled as one atomic step,
reporting along with the new state whether it reached `tokio::task::spawn`. -/

inductive TaskState (α : Type) where
  | running
  | finished (join : Option α)

structure FetcherState (α : Type) where
  in_progress : String → Option (TaskState α)

/-- Embedding of `Fetcher::start_download` (fetch/mod.rs lines 33-49): if an entry
already exists for `url`, return without spawning; otherwise spawn the
request task and register its handle. The Bool records whether a new
underlying network request was spawned. -/
def startDownload (s : FetcherState α) (url : String) : FetcherState α × Bool :=
  match s.in_progress url with
  | some _ => (s, false)
  | none => (⟨fun u => if u = url then some .running else s.in_progress u⟩, true)

/-- Embedding of `Fetcher::try_finish` (fetch/mod.rs lines 51-65): remove the
handle; if absent return nothing; if not finished re-insert it
unchanged and return nothing; if finished, return `handle.await`'s
outcome, leaving the entry removed — also when the join itself failed
(logged, returns nothing). -/
def tryFinishDownload (s : FetcherState α) (url : String) : FetcherState α × Option α :=
  match s.in_progress url with
  | none => (s, none)
  | some .running => (s, none)
  | some (.finished j) => (⟨fun u => if u = url then none else s.in_progress u⟩, j)

/-- The external event of a spawned task completing: a running entry
becomes finished; anything else is unaffected (no task re-registers a
removed entry). -/
def completeTask (s : FetcherState α) (url : String) (j : Option α) : FetcherState α :=
  match s.in_progress url with
  | some .running => ⟨fun u => if u = url then some (.finished j) else s.in_progress u⟩
  | _ => s

/-- The operations that can touch the fetcher between two calls. -/
inductive FetchOp (α : Type) where
  | start (url : String)
  | tryFinish (url : String)
  | complete (url : String) (j : Option α)

def applyOp (s : FetcherState α) : FetchOp α → FetcherState α
  | .start url => (startDownload s url).1
  | .tryFinish url => (tryFinishDownload s url).1
  | .complete url j => completeTask s url j

def applyOps (s : FetcherState α) (ops : List (FetchOp α)) : FetcherState α :=
  ops.foldl applyOp s

/-- Whether an operation is `startDownload` for the given url. -/
def startsUrl (url : String) : FetchOp α → Prop
  | .start u => u = url
  | _ => False

theorem applyOp_none (s : FetcherState α) (url : String) (op : FetchOp α)
    (h : s.in_progress url = none) (hop : ¬ startsUrl url op) :
    (applyOp s op).in_progress url = none := by
  cases op with
  | start u =>
    have hu : ¬ u = url := fun he => hop (by simpa [startsUrl] using he)
    simp only [applyOp, startDownload]
    cases hs : s.in_progress u with
    | some t => exact h
    | none =>
      show (if url = u then some TaskState.running else s.in_progress url) = none
      rw [if_neg (fun he => hu he.symm)]
      exact h
  | tryFinish u =>
    simp only [applyOp, tryFinishDownload]
    cases hs : s.in_progress u with
    | none => exact h
    | some t =>
      cases t with
      | running => exact h
      | finished j =>
        show (if url = u then none else s.in_progress url) = none
        split_ifs <;> simp [h]
  | complete u j =>
    simp only [applyOp, completeTask]
    cases hs : s.in_progress u with
    | none => exact h
    | some t =>
      cases t with
      | finished j' => exact h
      | running =>
        show (if url = u then some (TaskState.finished j) else s.in_progress url) = none
        rcases eq_or_ne url u with rfl | hne
        · rw [hs] at h; cases h
        · rw [if_neg hne]; exact h

theorem applyOps_none (s : FetcherState α) (url : String) (ops : List (FetchOp α))
    (h : s.in_progress url = none) (hops : ∀ op ∈ ops, ¬ startsUrl url op) :
    (applyOps s ops).in_progress url = none := by
  induction ops generalizing s with
  | nil => exact h
  | cons op rest ih =>
    exact ih (applyOp s op)
      (applyOp_none s url op h (hops op (by simp)))
      (fun o ho => hops o (by simp [ho]))

/-- C4: if an entry for `url` is registered (running or
finished-but-unclaimed), `startDownload url` is a no-op that spawns
nothing; starting twice from a state with no entry spawns exactly one
request (the first call spawns, the second does not); and once
`tryFinish url` has returned a completed download's outcome, every
later `tryFinish url` — after any interleaving of operations that never
starts `url` again — returns nothing. -/
theorem fetcher_dedup_and_claim_once (α : Type) (s : FetcherState α) (url : String) :
    (∀ e, s.in_progress url = some e → startDownload s url = (s, false)) ∧
    (s.in_progress url = none → (startDownload s url).2 = true) ∧
    ((startDownload (startDownload s url).1 url).2 = false) ∧
    (∀ o s', tryFinishDownload s url = (s', some o) →
      ∀ ops : List (FetchOp α), (∀ op ∈ ops, ¬ startsUrl url op) →
        (tryFinishDownload (applyOps s' ops) url).2 = none) := by
  refine ⟨?_, ?_, ?_, ?_⟩
  · intro e he
    simp only [startDownload, he]
  · intro he
    simp only [startDownload, he]
  · simp only [startDownload]
    cases hs : s.in_progress url with
    | some t => simp only [hs]
    | none =>
      show ((match (if url = url then some TaskState.running else s.in_progress url) with
        | some _ => _
        | none => _ : FetcherState α × Bool)).2 = false
      rw [if_pos rfl]
  · intro o s' h ops hops
    have hclaim : s'.in_progress url = none := by
      simp only [tryFinishDownload] at h
      cases hs : s.in_progress url with
      | none => rw [hs] at h; cases h
      | some t =>
        cases t with
        | running => rw [hs] at h; cases h
        | finished j =>
          rw [hs] at h
          cases h
          show (if url = url then none else s.in_progress url) = none
          rw [if_pos rfl]
    have := applyOps_none s' url ops hclaim hops
    simp only [tryFinishDownload, this]

theorem fetcher_dedup_and_claim_once_witness :
    ((⟨fun _ => none⟩ : FetcherState Nat).in_progress "u" = none) ∧
    ((startDownload (⟨fun _ => none⟩ : FetcherState Nat) "u").2 = true) ∧
    ((startDownload (startDownload (⟨fun _ => none⟩ : FetcherState Nat) "u").1 "u").2 = false) ∧
    (tryFinishDownload
      (⟨fun u => if u = "u" then some (TaskState.finished (some 7)) else none⟩ : FetcherState Nat)
      "u" =
      (⟨fun u => if u = "u" then none
        else if u = "u" then some (TaskState.finished (some 7)) else none⟩, some 7)) ∧
    ((tryFinishDownload
      (applyOps
        (⟨fun u => if u = "u" then none
          else if u = "u" then some (TaskState.finished (some 7)) else none⟩ : FetcherState Nat)
        [FetchOp.tryFinish "u", FetchOp.complete "u" (some 8)]) "u").2 = none) :=
  ⟨rfl,
   (fetcher_dedup_and_claim_once Nat ⟨fun _ => none⟩ "u").2.1 rfl,
   (fetcher_dedup_and_claim_once Nat ⟨fun _ => none⟩ "u").2.2.1,
   rfl,
   (fetcher_dedup_and_claim_once Nat
      ⟨fun u => if u = "u" then some (TaskState.finished (some 7)) else none⟩ "u").2.2.2
      7 _ rfl [FetchOp.tryFinish "u", FetchOp.complete "u" (some 8)]
      (by
        intro op hop
        simp only [List.mem_cons, List.not_mem_nil, or_false] at hop
        rcases hop with rfl | rfl <;> simp [startsUrl])⟩

/-! ## `MaybeLoaded` media state machine (document/media.rs lines 17-57)

`tick` interacts with the global fetcher: in `NotStarted` it calls
`start_download` and becomes `Working`; in `Working` it polls
`try_finish`. The poll's answer is passed in as a parameter: `none`
when nothing is ready, otherwise the completed `RequestOutcome`. A
response carries its status code and the result of the later
`response.bytes()` body read; reading the body is fallible, and
`.expect("Response body is empty?")` panics on that failure, modelled
by `tick` returning `none`. The `TryFrom<Vec<u8>>` conversion of the
target type is the `tryInto` parameter. -/

inductive MaybeLoaded (I E : Type) where
  | NotStarted (url : String)
  | Working (url : String)
  | Done (url : String) (result : Except E I)
  | Failed (url : String) (err : String)
  | BadStatus (code : Nat)

/-- The `RequestOutcome` of a completed download as `tick` consumes it:
an `Err` from the middleware (timeout or transport error during the
send), or an `Ok(Response)` with its status code and the result that a
subsequent `response.bytes()` body read would yield. -/
inductive RequestOutcome where
  | err (msg : String)
  | resp (status : Nat) (body : Except String (List Nat))

/-- Embedding of `StatusCode::is_success`: 2xx. -/
def is2xx (status : Nat) : Bool := 200 ≤ status && status < 300

/-- Embedding of `MaybeLoaded::tick` (document/media.rs lines 26-57). Returns `none`
exactly when the code panics (the body-read `expect`). -/
def tick (tryInto : List Nat → Except E I) (st : MaybeLoaded I E)
    (poll : Option RequestOutcome) : Option (MaybeLoaded I E) :=
  match st with
  | .NotStarted url => some (.Working url)
  | .Working url =>
    match poll with
    | none => some (.Working url)
    | some (.err e) => some (.Failed url e)
    | some (.resp status body) =>
      if !is2xx status then some (.BadStatus status)
      else
        match body with
        | .ok bs => some (.Done url (tryInto bs))
        | .error _ => none
  | st => some st

/-- States `Done`, `Failed` and `BadStatus` are the terminal states. -/
def MaybeLoaded.isTerminal : MaybeLoaded I E → Prop
  | .Done _ _ => True
  | .Failed _ _ => True
  | .BadStatus _ => True
  | _ => False

/-- The forward edges of the `MaybeLoaded` state machine:
`NotStarted(url) → Working(url)` and `Working(url)` to a terminal
state. -/
def MaybeLoaded.forwardEdge : MaybeLoaded I E → MaybeLoaded I E → Prop
  | .NotStarted u, .Working v => u = v
  | .Working u, .Done v _ => u = v
  | .Working u, .Failed v _ => u = v
  | .Working _, .BadStatus _ => True
  | _, _ => False

/-- C5: whatever the poll answers, a `tick` call that returns performs
at most one transition — the state is unchanged or moves along exactly
one forward edge of
`NotStarted(url) → Working(url) → (Done | Failed | BadStatus)`,
never backwards — and on a terminal state `tick` is a no-op. -/
theorem tick_single_forward_step (I E : Type) (tryInto : List Nat → Except E I)
    (st : MaybeLoaded I E) (poll : Option RequestOutcome) :
    (st.isTerminal → tick tryInto st poll = some st) ∧
    (∀ st', tick tryInto st poll = some st' → st' = st ∨ st.forwardEdge st') := by
  constructor
  · intro ht
    cases st with
    | NotStarted url => exact absurd ht (by simp [MaybeLoaded.isTerminal])
    | Working url => exact absurd ht (by simp [MaybeLoaded.isTerminal])
    | Done url r => rfl
    | Failed url e => rfl
    | BadStatus c => rfl
  · intro st' h
    cases st with
    | NotStarted url =>
      cases h
      exact Or.inr rfl
    | Working url =>
      cases poll with
      | none => cases h; exact Or.inl rfl
      | some out =>
        cases out with
        | err e => cases h; exact Or.inr rfl
        | resp status body =>
          simp only [tick] at h
          split_ifs at h with h2
          · cases h; exact Or.inr trivial
          · cases body with
            | ok bs => cases h; exact Or.inr rfl
            | error e => cases h
    | Done url r => cases h; exact Or.inl rfl
    | Failed url e => cases h; exact Or.inl rfl
    | BadStatus c => cases h; exact Or.inl rfl

theorem tick_single_forward_step_witness :
    ((MaybeLoaded.BadStatus 404 : MaybeLoaded Unit Unit).isTerminal →
      tick (fun _ => (Except.ok () : Except Unit Unit))
        (MaybeLoaded.BadStatus 404) none = some (MaybeLoaded.BadStatus 404)) ∧
    (∀ st', tick (fun _ => (Except.ok () : Except Unit Unit))
        (MaybeLoaded.BadStatus 404 : MaybeLoaded Unit Unit) none = some st' →
      st' = MaybeLoaded.BadStatus 404 ∨ (MaybeLoaded.BadStatus 404).forwardEdge st') :=
  tick_single_forward_step Unit Unit (fun _ => Except.ok ())
    (MaybeLoaded.BadStatus 404) none

/-- C6 counterexample: a transport error (or expiry of the 30s
timeout) while reading the body of a `200` response — one of the
claim's "timeout, transport error" outcomes — is not captured as a
terminal state: `tick` reaches
`response.bytes().await.expect("Response body is empty?")` and panics
(modelled as `none`), refuting "tick never panics" for such outcomes. -/
theorem tick_panics_on_body_read_error :
    tick (fun _ => (Except.ok () : Except Unit Unit)) (.Working "u")
      (some (RequestOutcome.resp 200 (Except.error "connection reset"))) = none := by
  rfl

/-- C6 (amended): an `Err` outcome of the poll (timeout or transport
error of the send), a response with a non-2xx status, and a 2xx
response whose body read succeeds (the decode result, success or
failure, carried in `Done`) are each captured by `tick` from `Working`
as a terminal state without panicking; but a timeout or transport
error during the body read of a 2xx response reaches `tick`'s
panicking branch (the body-read `expect`) instead of being captured. -/
theorem tick_outcomes_amended (I E : Type) (tryInto : List Nat → Except E I)
    (url : String) (out : RequestOutcome) :
    (((∃ e, out = .err e) ∨
      (∃ status body, out = .resp status body ∧ is2xx status = false) ∨
      (∃ status bs, out = .resp status (.ok bs) ∧ is2xx status = true)) →
      ∃ st', tick tryInto (.Working url) (some out) = some st' ∧ st'.isTerminal) ∧
    (∀ status msg, out = .resp status (.error msg) → is2xx status = true →
      tick tryInto (.Working url) (some out) = none) := by
  constructor
  · intro h
    rcases h with ⟨e, rfl⟩ | ⟨status, body, rfl, hs⟩ | ⟨status, bs, rfl, hs⟩
    · exact ⟨.Failed url e, rfl, trivial⟩
    · exact ⟨.BadStatus status, by simp [tick, hs], trivial⟩
    · exact ⟨.Done url (tryInto bs), by simp [tick, hs], trivial⟩
  · rintro status msg rfl hs
    simp [tick, hs]

theorem tick_outcomes_amended_witness :
    (∃ st', tick (fun _ => (Except.ok () : Except Unit Unit)) (.Working "u")
        (some (RequestOutcome.err "timed out")) = some st' ∧ st'.isTerminal) ∧
    (tick (fun _ => (Except.ok () : Except Unit Unit)) (.Working "u")
        (some (RequestOutcome.resp 200 (Except.error "reset"))) = none) :=
  ⟨(tick_outcomes_amended Unit Unit (fun _ => Except.ok ()) "u"
      (RequestOutcome.err "timed out")).1 (Or.inl ⟨"timed out", rfl⟩),
   (tick_outcomes_amended Unit Unit (fun _ => Except.ok ()) "u"
      (RequestOutcome.resp 200 (Except.error "reset"))).2 200 "reset" rfl (by decide)⟩

theorem refresh_rebuilds_caches_witness :
    (∀ k, k ∈ (refresh (fun _ => none) [b64Encode [97]] [] (fun _ => none)).1 ↔
      ∃ n ∈ [b64Encode [97]], decodeName n = some k) ∧
    (∀ u, ((refresh (fun _ => none) [b64Encode [97]] [] (fun _ => none)).2 u).isSome ↔
      ∃ e ∈ ([] : List SubEntry), decodeName e.name = some u ∧
        ∃ d, e.content = some d ∧ ((fun _ => none : List Nat → Option Feed) d).isSome) :=
  refresh_rebuilds_caches (fun _ => none) [b64Encode [97]] [] (fun _ => none)
